import Mathlib

/-!
Verification development for the hvsum caching subsystem (cache.go) and
search orchestrator (web.go).

Modelling conventions:
* The cache directory is a `Store α`: an association list from file name
  (the cache key; every file the store touches has the `.json` suffix, so
  the suffix is dropped) to the file's parsed contents.  A file whose
  contents do not unmarshal into a `CacheEntry` is `CacheFile.corrupt`.
* `time.Time` values and `time.Since(_).Hours()` are modelled with exact
  rational numbers of hours; Go's float64 comparison `age.Hours() > float64(ttl)`
  becomes the exact comparison `now - timestamp > ttl` over ℚ.
* The cache payload (`Data interface{}` in Go) is a type parameter `α`;
  the JSON round-trip of a well-typed payload is the identity.
* `os.WriteFile` may fail; `Set` takes the outcome of that write as the
  boolean `writeOk` and reports failure in its second component, mirroring
  the Go error return.
-/

namespace Hvsum

/-- The fields of `Config` (config.go) consumed by the cache and search code. -/
structure Config where
  maxSearchResults : Nat
  cacheEnabled : Bool
  cacheTTL : Int
deriving Repr, DecidableEq

/-- `CacheEntry` from cache.go: payload, creation timestamp (hours), TTL in
hours, owning session ID and the pending flag. -/
structure CacheEntry (α : Type) where
  data : α
  timestamp : ℚ
  ttl : Int
  sessionID : String
  pending : Bool
deriving Repr, DecidableEq

/-- Contents of one file in the cache directory: either JSON that
unmarshals into a `CacheEntry`, or corrupt data. -/
inductive CacheFile (α : Type) where
  | valid : CacheEntry α → CacheFile α
  | corrupt : CacheFile α
deriving Repr, DecidableEq

/-- The cache directory: file name (cache key) paired with file contents. -/
abbrev Store (α : Type) : Type := List (String × CacheFile α)

/-- Reading the file named `key` from the directory. -/
def lookupStore {α : Type} : Store α → String → Option (CacheFile α)
  | [], _ => none
  | (k, f) :: rest, key => if k = key then some f else lookupStore rest key

/-- `os.Remove` of the file named `key`. -/
def removeStore {α : Type} (st : Store α) (key : String) : Store α :=
  st.filter (fun p => !(p.1 == key))

/-- `os.WriteFile` of the file named `key` (create or overwrite). -/
def setStore {α : Type} (st : Store α) (key : String) (f : CacheFile α) : Store α :=
  (key, f) :: removeStore st key

/-- `CacheManager.Get` (cache.go): returns the retrieved payload (in Go, a
boolean plus an out-parameter) together with the directory after the call;
an entry past its TTL is removed as a side effect and reported as a miss,
and an unreadable or corrupt file is a miss with no side effect. -/
def Get {α : Type} (cfg : Config) (st : Store α) (now : ℚ) (key : String) :
    Option α × Store α :=
  if !cfg.cacheEnabled then (none, st)
  else
    match lookupStore st key with
    | none => (none, st)
    | some .corrupt => (none, st)
    | some (.valid e) =>
      if now - e.timestamp > (e.ttl : ℚ) then (none, removeStore st key)
      else (some e.data, st)

/-- `CacheManager.Set` (cache.go): overwrites the entry for `key` with a
fresh entry carrying the configured TTL; the entry is pending exactly when
`sessionID` is nonempty.  `writeOk` is the outcome of the underlying
`os.WriteFile`; the boolean result mirrors Go's error return (`true` = nil
error). -/
def Set {α : Type} (cfg : Config) (writeOk : Bool) (st : Store α) (now : ℚ)
    (key : String) (data : α) (sessionID : String) : Store α × Bool :=
  if !cfg.cacheEnabled then (st, true)
  else
    let entry : CacheEntry α :=
      { data := data, timestamp := now, ttl := cfg.cacheTTL,
        sessionID := sessionID, pending := sessionID != "" }
    if writeOk then (setStore st key (.valid entry), true) else (st, false)

/-- The deletion condition of `CleanExpired` (cache.go line 127): TTL
elapsed, or pending and older than the 1 hour grace period. -/
def cleanCondition {α : Type} (now : ℚ) (e : CacheEntry α) : Bool :=
  decide (now - e.timestamp > (e.ttl : ℚ)) ||
    (e.pending && decide (now - e.timestamp > 1))

/-- `CacheManager.CleanExpired` (cache.go): removes every parsable entry
meeting `cleanCondition`; unreadable or corrupt files are skipped
(`continue`) and left in place. -/
def CleanExpired {α : Type} (cfg : Config) (st : Store α) (now : ℚ) : Store α :=
  if !cfg.cacheEnabled then st
  else
    st.filter (fun p =>
      match p.2 with
      | .corrupt => true
      | .valid e => !(cleanCondition now e))

/-- The per-file transformation of `CommitSessionCache`: an entry matching
the session and pending becomes final (`pending = false`) and is
disassociated from the session (`sessionID = ""`); all other files are
untouched. -/
def commitFile {α : Type} (sessionID : String) (f : CacheFile α) : CacheFile α :=
  match f with
  | .corrupt => .corrupt
  | .valid e =>
    if e.sessionID = sessionID ∧ e.pending = true then
      .valid { e with pending := false, sessionID := "" }
    else .valid e

/-- `CacheManager.CommitSessionCache` (cache.go): no-op when the cache is
disabled or the session ID is empty; otherwise rewrites every matching
pending entry via `commitFile`. -/
def CommitSessionCache {α : Type} (cfg : Config) (st : Store α)
    (sessionID : String) : Store α :=
  if !cfg.cacheEnabled || sessionID == "" then st
  else st.map (fun p => (p.1, commitFile sessionID p.2))

/-- `CacheManager.ClearSessionCache` (cache.go): no-op when the cache is
disabled or the session ID is empty; otherwise removes every parsable
entry whose `sessionID` matches (pending or not), leaving corrupt files in
place. -/
def ClearSessionCache {α : Type} (cfg : Config) (st : Store α)
    (sessionID : String) : Store α :=
  if !cfg.cacheEnabled || sessionID == "" then st
  else
    st.filter (fun p =>
      match p.2 with
      | .corrupt => true
      | .valid e => !(e.sessionID == sessionID))

/-- `SearchResult` from web.go. -/
structure SearchResult where
  title : String
  url : String
  snippet : String
  source : String
deriving Repr, DecidableEq

/-- The canonical request descriptor `fmt.Sprintf("search:%s:%d", query, limit)`
hashed by `GetCacheKey` to produce the cache key for one search. -/
def searchDescriptor (query : String) (limit : Int) : String :=
  "search:" ++ query ++ ":" ++ toString limit

/-- `SearchManager.Search` (web.go): cache-checked single query.
`fingerprint` stands for `CacheManager.GetCacheKey` (an md5 hex digest,
kept abstract: the claims use only that it is a function of the
descriptor), and `engine` for the `SearchEngine.Search` capability of the
underlying provider.  On a cache hit the cached results are returned; on a
miss the provider is invoked; a provider error is returned to the caller;
on provider success with a nonempty result list the results are stored
with the caller's session ID, and the error value of that `Set` call is
discarded (the Go code does not bind it). -/
def Search (cfg : Config) (fingerprint : String → String)
    (engine : String → Int → Except String (List SearchResult))
    (writeOk : Bool) (st : Store (List SearchResult)) (now : ℚ)
    (query : String) (limit : Int) (sessionID : String) :
    Except String (List SearchResult) × Store (List SearchResult) :=
  let cacheKey := fingerprint (searchDescriptor query limit)
  match Get cfg st now cacheKey with
  | (some cached, st1) => (.ok cached, st1)
  | (none, st1) =>
    match engine query limit with
    | .error e => (.error e, st1)
    | .ok results =>
      if results.length > 0 then
        (.ok results, (Set cfg writeOk st1 now cacheKey results sessionID).1)
      else (.ok results, st1)

/-- The loop body of `deduplicateResults` (web.go): `seen` is the set of
URLs already emitted; a result whose URL was seen is dropped, otherwise it
is appended and its URL recorded. -/
def dedupeLoop : List String → List SearchResult → List SearchResult
  | _, [] => []
  | seen, r :: rest =>
    if r.url ∈ seen then dedupeLoop seen rest
    else r :: dedupeLoop (r.url :: seen) rest

/-- `SearchManager.deduplicateResults` (web.go): removes duplicates by
exact equality of the `url` field, first occurrence winning. -/
def deduplicateResults (results : List SearchResult) : List SearchResult :=
  dedupeLoop [] results

/-- The truncation step of `PerformParallelSearches` (web.go lines
183-185): if the deduplicated aggregate exceeds `MaxSearchResults`, keep
only the first `MaxSearchResults` elements. -/
def truncateResults (maxResults : Nat) (rs : List SearchResult) : List SearchResult :=
  if rs.length > maxResults then rs.take maxResults else rs

/-- The fan-out loop of `PerformParallelSearches`: each query runs
`Search`; a failed query contributes nothing to the aggregate (the
goroutine returns after logging), a successful one appends its results.
The concurrent interleaving is modelled by dispatch order; the store is
threaded through the calls. -/
def searchBatch (cfg : Config) (fingerprint : String → String)
    (engine : String → Int → Except String (List SearchResult)) (writeOk : Bool) :
    Store (List SearchResult) → ℚ → List String → Int → String →
      List SearchResult × Store (List SearchResult)
  | st, _, [], _, _ => ([], st)
  | st, now, q :: qs, limit, sid =>
    match Search cfg fingerprint engine writeOk st now q limit sid with
    | (.error _, st1) => searchBatch cfg fingerprint engine writeOk st1 now qs limit sid
    | (.ok rs, st1) =>
      let rec1 := searchBatch cfg fingerprint engine writeOk st1 now qs limit sid
      (rs ++ rec1.1, rec1.2)

/-- The per-query outcomes of the same fan-out: the `Except` value each
`Search` call produced, in dispatch order, with the store threaded
identically to `searchBatch`. -/
def searchOutcomes (cfg : Config) (fingerprint : String → String)
    (engine : String → Int → Except String (List SearchResult)) (writeOk : Bool) :
    Store (List SearchResult) → ℚ → List String → Int → String →
      List (Except String (List SearchResult)) × Store (List SearchResult)
  | st, _, [], _, _ => ([], st)
  | st, now, q :: qs, limit, sid =>
    let r := Search cfg fingerprint engine writeOk st now q limit sid
    let rec1 := searchOutcomes cfg fingerprint engine writeOk r.2 now qs limit sid
    (r.1 :: rec1.1, rec1.2)

/-- `SearchManager.PerformParallelSearches` (web.go): runs every query
through `Search`, drops failed queries, deduplicates the aggregate by URL
and truncates it to `MaxSearchResults`.  The function has no error
result: Go's signature returns only `[]SearchResult`. -/
def PerformParallelSearches (cfg : Config) (fingerprint : String → String)
    (engine : String → Int → Except String (List SearchResult)) (writeOk : Bool)
    (st : Store (List SearchResult)) (now : ℚ) (queries : List String)
    (limitPerQuery : Int) (sessionID : String) :
    List SearchResult × Store (List SearchResult) :=
  let batch := searchBatch cfg fingerprint engine writeOk st now queries limitPerQuery sessionID
  (truncateResults cfg.maxSearchResults (deduplicateResults batch.1), batch.2)

/-! ### The semaphore of `PerformParallelSearches`

Go dispatches one goroutine per query; each goroutine sends on a buffered
channel `semaphore := make(chan struct{}, 4)` before calling `Search` and
receives from it when done.  A send succeeds exactly when fewer than 4
slots are held, so the number of in-flight searches never exceeds 4.  The
pool is modelled as a transition system: `waiting` goroutines have been
spawned but not yet acquired a slot, `inFlight` hold a slot, `done` have
released theirs. -/

/-- Capacity of the semaphore channel in `PerformParallelSearches`
(web.go line 159): hardcoded to 4, not supplied by the caller. -/
def semaphoreCapacity : Nat := 4

/-- A state of the worker pool spawned by `PerformParallelSearches`. -/
structure PoolState where
  waiting : Nat
  inFlight : Nat
  done : Nat
deriving Repr, DecidableEq

/-- One scheduler step of the pool: a waiting goroutine acquires a
semaphore slot (possible only while fewer than `semaphoreCapacity` are in
flight), or an in-flight goroutine finishes its search and releases its
slot. -/
inductive PoolStep : PoolState → PoolState → Prop where
  | acquire (s : PoolState) (hw : 0 < s.waiting) (hcap : s.inFlight < semaphoreCapacity) :
      PoolStep s ⟨s.waiting - 1, s.inFlight + 1, s.done⟩
  | release (s : PoolState) (hf : 0 < s.inFlight) :
      PoolStep s ⟨s.waiting, s.inFlight - 1, s.done + 1⟩

/-- Initial pool state for a batch of `n` queries: all goroutines spawned,
none holding a semaphore slot. -/
def initPool (n : Nat) : PoolState := ⟨n, 0, 0⟩

/-- States reachable during an execution of `PerformParallelSearches` on a
batch of `n` queries. -/
inductive PoolReachable (n : Nat) : PoolState → Prop where
  | init : PoolReachable n (initPool n)
  | step {s t : PoolState} : PoolReachable n s → PoolStep s t → PoolReachable n t

/-! ### Helper lemmas about the store -/

theorem lookupStore_map {α : Type} (g : CacheFile α → CacheFile α) (st : Store α)
    (k : String) :
    lookupStore (st.map (fun p => (p.1, g p.2))) k = (lookupStore st k).map g := by
  induction st with
  | nil => rfl
  | cons hd tl ih =>
    obtain ⟨k', f⟩ := hd
    by_cases hk : k' = k
    · simp [lookupStore, hk]
    · simp [lookupStore, hk, ih]

theorem lookupStore_eq_none_of_not_mem {α : Type} (st : Store α) (k : String)
    (h : k ∉ st.map Prod.fst) : lookupStore st k = none := by
  induction st with
  | nil => rfl
  | cons hd tl ih =>
    obtain ⟨k', f⟩ := hd
    simp only [List.map_cons, List.mem_cons, not_or] at h
    simp [lookupStore, Ne.symm h.1, ih h.2]

theorem lookupStore_filter_none {α : Type} (p : String × CacheFile α → Bool)
    (st : Store α) (k : String) (h : lookupStore st k = none) :
    lookupStore (st.filter p) k = none := by
  induction st with
  | nil => rfl
  | cons hd tl ih =>
    obtain ⟨k', f⟩ := hd
    by_cases hk : k' = k
    · simp [lookupStore, hk] at h
    · simp only [lookupStore, if_neg hk] at h
      rw [List.filter_cons]
      split
      · simp [lookupStore, hk, ih h]
      · exact ih h

theorem lookupStore_filter_keep {α : Type} (p : String × CacheFile α → Bool)
    (st : Store α) (k : String) (f : CacheFile α)
    (h : lookupStore st k = some f) (hp : p (k, f) = true) :
    lookupStore (st.filter p) k = some f := by
  induction st with
  | nil => simp [lookupStore] at h
  | cons hd tl ih =>
    obtain ⟨k', f'⟩ := hd
    by_cases hk : k' = k
    · simp only [lookupStore, if_pos hk] at h
      subst hk
      obtain rfl : f' = f := by simpa using h
      rw [List.filter_cons, if_pos hp]
      simp [lookupStore]
    · simp only [lookupStore, if_neg hk] at h
      rw [List.filter_cons]
      split
      · simp [lookupStore, hk, ih h]
      · exact ih h

theorem lookupStore_filter_drop {α : Type} (p : String × CacheFile α → Bool)
    (st : Store α) (k : String) (f : CacheFile α)
    (hnd : (st.map Prod.fst).Nodup) (h : lookupStore st k = some f)
    (hp : p (k, f) = false) :
    lookupStore (st.filter p) k = none := by
  induction st with
  | nil => simp [lookupStore] at h
  | cons hd tl ih =>
    obtain ⟨k', f'⟩ := hd
    simp only [List.map_cons, List.nodup_cons] at hnd
    by_cases hk : k' = k
    · simp only [lookupStore, if_pos hk] at h
      subst hk
      obtain rfl : f' = f := by simpa using h
      rw [List.filter_cons, if_neg (by simp [hp])]
      exact lookupStore_filter_none p tl k'
        (lookupStore_eq_none_of_not_mem tl k' hnd.1)
    · simp only [lookupStore, if_neg hk] at h
      rw [List.filter_cons]
      split
      · simp [lookupStore, hk, ih hnd.2 h]
      · exact ih hnd.2 h

theorem lookupStore_removeStore_self {α : Type} (st : Store α) (k : String) :
    lookupStore (removeStore st k) k = none := by
  induction st with
  | nil => rfl
  | cons hd tl ih =>
    obtain ⟨k', f⟩ := hd
    by_cases hk : k' = k
    · simpa [removeStore, List.filter_cons, hk] using ih
    · simpa [removeStore, List.filter_cons, hk, lookupStore] using ih

theorem lookupStore_setStore_self {α : Type} (st : Store α) (k : String)
    (f : CacheFile α) : lookupStore (setStore st k f) k = some f := by
  simp [setStore, lookupStore]

theorem Get_snd_sublist {α : Type} (cfg : Config) (st : Store α) (now : ℚ)
    (key : String) : (Get cfg st now key).2.Sublist st := by
  unfold Get
  split
  · exact List.Sublist.refl st
  · split
    · exact List.Sublist.refl st
    · exact List.Sublist.refl st
    · split
      · exact List.filter_sublist st
      · exact List.Sublist.refl st

/-! ### Helper lemmas about deduplication and the batch loop -/

theorem mem_of_mem_dedupeLoop (r : SearchResult) :
    ∀ (seen : List String) (rs : List SearchResult),
      r ∈ dedupeLoop seen rs → r ∈ rs := by
  intro seen rs
  induction rs generalizing seen with
  | nil => simp [dedupeLoop]
  | cons hd tl ih =>
    intro hmem
    simp only [dedupeLoop] at hmem
    split at hmem
    · exact List.mem_cons_of_mem hd (ih _ hmem)
    · rcases List.mem_cons.mp hmem with hr | hr
      · exact hr ▸ List.mem_cons_self hd tl
      · exact List.mem_cons_of_mem hd (ih _ hr)

theorem length_truncateResults (maxResults : Nat) (rs : List SearchResult) :
    (truncateResults maxResults rs).length ≤ maxResults := by
  unfold truncateResults
  split
  · simp only [List.length_take]
    exact Nat.min_le_left _ _
  · omega

theorem searchBatch_eq_outcomes (cfg : Config) (fingerprint : String → String)
    (engine : String → Int → Except String (List SearchResult)) (writeOk : Bool)
    (now : ℚ) (limit : Int) (sid : String) :
    ∀ (queries : List String) (st : Store (List SearchResult)),
      searchBatch cfg fingerprint engine writeOk st now queries limit sid =
        (((searchOutcomes cfg fingerprint engine writeOk st now queries limit sid).1.filterMap
            Except.toOption).flatten,
          (searchOutcomes cfg fingerprint engine writeOk st now queries limit sid).2) := by
  intro queries
  induction queries with
  | nil => intro st; rfl
  | cons q qs ih =>
    intro st
    simp only [searchBatch, searchOutcomes]
    rcases hsr : Search cfg fingerprint engine writeOk st now q limit sid with ⟨res, st1⟩
    rcases res with e | rs
    · simp [ih st1, Except.toOption]
    · simp [ih st1, Except.toOption]

/-- `Get` on a key holding a fresh (unexpired) entry is a hit returning the
entry's payload with no side effect. -/
theorem Get_hit {α : Type} (cfg : Config) (st : Store α) (now : ℚ) (key : String)
    (e : CacheEntry α) (hEn : cfg.cacheEnabled = true)
    (hk : lookupStore st key = some (.valid e))
    (hfresh : ¬(now - e.timestamp > (e.ttl : ℚ))) :
    Get cfg st now key = (some e.data, st) := by
  simp [Get, hEn, hk, hfresh]

/-- `Get` on a key holding an entry past its TTL is a miss and removes the
entry's file. -/
theorem Get_expired {α : Type} (cfg : Config) (st : Store α) (now : ℚ)
    (key : String) (e : CacheEntry α) (hEn : cfg.cacheEnabled = true)
    (hk : lookupStore st key = some (.valid e))
    (hexp : now - e.timestamp > (e.ttl : ℚ)) :
    Get cfg st now key = (none, removeStore st key) := by
  simp [Get, hEn, hk, hexp]

/-- Bridge between the boolean deletion condition of `CleanExpired` and its
propositional reading. -/
theorem cleanCondition_eq_true_iff {α : Type} (now : ℚ) (e : CacheEntry α) :
    cleanCondition now e = true ↔
      (now - e.timestamp > (e.ttl : ℚ) ∨ (e.pending = true ∧ now - e.timestamp > 1)) := by
  simp [cleanCondition]

/-- C2: an entry written by `Set` with value `v` under the configured TTL of
`cfg.cacheTTL` hours is returned by `Get` (with the store untouched) at any
time strictly less than `cfg.cacheTTL` hours after the write, and at any
time strictly more than `cfg.cacheTTL` hours after the write `Get` reports
a miss and deletes the entry's file as a side effect. -/
theorem ttl_monotonicity {α : Type} (cfg : Config) (st : Store α) (tw now : ℚ)
    (key : String) (v : α) (sid : String) (hEn : cfg.cacheEnabled = true) :
    (now - tw < (cfg.cacheTTL : ℚ) →
      Get cfg (Set cfg true st tw key v sid).1 now key =
        (some v, (Set cfg true st tw key v sid).1)) ∧
    (now - tw > (cfg.cacheTTL : ℚ) →
      (Get cfg (Set cfg true st tw key v sid).1 now key).1 = none ∧
      lookupStore (Get cfg (Set cfg true st tw key v sid).1 now key).2 key = none) := by
  have hlk : lookupStore (Set cfg true st tw key v sid).1 key
      = some (.valid ⟨v, tw, cfg.cacheTTL, sid, sid != ""⟩) := by
    have hset : (Set cfg true st tw key v sid).1
        = setStore st key (.valid ⟨v, tw, cfg.cacheTTL, sid, sid != ""⟩) := by
      simp [Set, hEn]
    rw [hset]
    exact lookupStore_setStore_self st key _
  constructor
  · intro hlt
    exact Get_hit cfg _ now key _ hEn hlk (lt_asymm hlt)
  · intro hgt
    have hEq : Get cfg (Set cfg true st tw key v sid).1 now key
        = (none, removeStore (Set cfg true st tw key v sid).1 key) :=
      Get_expired cfg _ now key _ hEn hlk hgt
    rw [hEq]
    exact ⟨rfl, lookupStore_removeStore_self _ key⟩

/-- C8: a cache file whose contents do not unmarshal into a `CacheEntry` is
reported by `Get` as a miss (Go returns `false`; there is no error return
and no panic: the model is a total function) with the store unchanged, and
`CleanExpired` skips it, leaving the corrupt file in place. -/
theorem corrupt_file_is_miss_and_kept {α : Type} (cfg : Config) (st : Store α)
    (now : ℚ) (k : String) (hk : lookupStore st k = some .corrupt) :
    Get cfg st now k = (none, st) ∧
    lookupStore (CleanExpired cfg st now) k = some (.corrupt) := by
  constructor
  · cases hEn : cfg.cacheEnabled with
    | false => simp [Get, hEn]
    | true => simp [Get, hEn, hk]
  · cases hEn : cfg.cacheEnabled with
    | false => simpa [CleanExpired, hEn] using hk
    | true =>
      simp only [CleanExpired, hEn, Bool.not_true, Bool.false_eq_true, if_false]
      exact lookupStore_filter_keep _ st k .corrupt hk rfl

/-- C4: `CleanExpired` deletes a parsable entry if and only if its TTL has
elapsed or it is pending and older than the 1 hour grace period; the
condition does not consult the entry's session, and an entry meeting
neither condition is still present unchanged. -/
theorem sweep_deletes_iff {α : Type} (cfg : Config) (st : Store α) (now : ℚ)
    (k : String) (e : CacheEntry α) (hEn : cfg.cacheEnabled = true)
    (hnd : (st.map Prod.fst).Nodup)
    (hk : lookupStore st k = some (.valid e)) :
    (lookupStore (CleanExpired cfg st now) k = none ↔
      (now - e.timestamp > (e.ttl : ℚ) ∨ (e.pending = true ∧ now - e.timestamp > 1))) ∧
    (¬(now - e.timestamp > (e.ttl : ℚ) ∨ (e.pending = true ∧ now - e.timestamp > 1)) →
      lookupStore (CleanExpired cfg st now) k = some (.valid e)) := by
  have hclean : CleanExpired cfg st now
      = st.filter (fun p =>
          match p.2 with
          | .corrupt => true
          | .valid e => !(cleanCondition now e)) := by
    simp [CleanExpired, hEn]
  by_cases hcond : now - e.timestamp > (e.ttl : ℚ) ∨ (e.pending = true ∧ now - e.timestamp > 1)
  · have hb : cleanCondition now e = true := (cleanCondition_eq_true_iff now e).mpr hcond
    have hdrop : lookupStore (CleanExpired cfg st now) k = none := by
      rw [hclean]
      exact lookupStore_filter_drop _ st k (.valid e) hnd hk (by simp [hb])
    exact ⟨by simp [hdrop, hcond], fun hc => absurd hcond hc⟩
  · have hb : cleanCondition now e = false := by
      rcases hc : cleanCondition now e with _ | _
      · rfl
      · exact absurd ((cleanCondition_eq_true_iff now e).mp hc) hcond
    have hkeep : lookupStore (CleanExpired cfg st now) k = some (.valid e) := by
      rw [hclean]
      exact lookupStore_filter_keep _ st k (.valid e) hk (by simp [hb])
    refine ⟨?_, fun _ => hkeep⟩
    simp [hkeep, hcond]

/-- C9: `CommitSessionCache sid` and `ClearSessionCache sid` leave every
parsable entry whose session ID differs from `sid` (in particular any
entry owned by another session `S'` and any entry with the empty session
ID) exactly where it was, unmodified; when `sid` is empty both calls are
no-ops. -/
theorem session_isolation {α : Type} (cfg : Config) (st : Store α)
    (sid k : String) (e : CacheEntry α) (hEn : cfg.cacheEnabled = true)
    (hk : lookupStore st k = some (.valid e))
    (hne : e.sessionID ≠ sid ∨ sid = "") :
    lookupStore (CommitSessionCache cfg st sid) k = some (.valid e) ∧
    lookupStore (ClearSessionCache cfg st sid) k = some (.valid e) := by
  by_cases hsid : sid = ""
  · constructor
    · simpa [CommitSessionCache, hsid] using hk
    · simpa [ClearSessionCache, hsid] using hk
  · have hne' : e.sessionID ≠ sid := by
      rcases hne with hne | hne
      · exact hne
      · exact absurd hne hsid
    constructor
    · have hmap : CommitSessionCache cfg st sid
          = st.map (fun p => (p.1, commitFile sid p.2)) := by
        simp [CommitSessionCache, hEn, hsid]
      rw [hmap, lookupStore_map, hk]
      simp [commitFile, hne']
    · have hfil : ClearSessionCache cfg st sid
          = st.filter (fun p =>
              match p.2 with
              | .corrupt => true
              | .valid e => !(e.sessionID == sid)) := by
        simp [ClearSessionCache, hEn, hsid]
      rw [hfil]
      exact lookupStore_filter_keep _ st k (.valid e) hk (by simp [hne'])

/-- C1: after `CommitSessionCache S` (with `S` nonempty), an entry that was
pending under session `S` is stored with `pending = false` and
`sessionID = ""` and its payload, creation timestamp and TTL intact; a
`Get` of its key at any time within its TTL still returns the original
payload; and a subsequent `ClearSessionCache S` does not delete the
committed entry. -/
theorem commit_finalizes_pending {α : Type} (cfg : Config) (st : Store α)
    (S k : String) (e : CacheEntry α) (hEn : cfg.cacheEnabled = true)
    (hS : S ≠ "") (hk : lookupStore st k = some (.valid e))
    (hsid : e.sessionID = S) (hp : e.pending = true) :
    lookupStore (CommitSessionCache cfg st S) k
      = some (.valid ⟨e.data, e.timestamp, e.ttl, "", false⟩) ∧
    (∀ now : ℚ, ¬(now - e.timestamp > (e.ttl : ℚ)) →
      (Get cfg (CommitSessionCache cfg st S) now k).1 = some e.data) ∧
    lookupStore (ClearSessionCache cfg (CommitSessionCache cfg st S) S) k
      = some (.valid ⟨e.data, e.timestamp, e.ttl, "", false⟩) := by
  have hmap : CommitSessionCache cfg st S
      = st.map (fun p => (p.1, commitFile S p.2)) := by
    simp [CommitSessionCache, hEn, hS]
  have hcommitted : lookupStore (CommitSessionCache cfg st S) k
      = some (.valid ⟨e.data, e.timestamp, e.ttl, "", false⟩) := by
    rw [hmap, lookupStore_map, hk]
    simp [commitFile, hsid, hp]
  refine ⟨hcommitted, ?_, ?_⟩
  · intro now hfresh
    simp [Get, hEn, hcommitted, hfresh]
  · have hfilter : ClearSessionCache cfg (CommitSessionCache cfg st S) S
        = (CommitSessionCache cfg st S).filter (fun p =>
            match p.2 with
            | .corrupt => true
            | .valid e => !(e.sessionID == S)) := by
      simp [ClearSessionCache, hEn, hS]
    rw [hfilter]
    exact lookupStore_filter_keep _ _ k _ hcommitted (by simp [Ne.symm hS])

/-! ### Concrete fixtures used by counterexamples and witnesses -/

/-- A configuration with the default values of config.go: cache enabled,
24 hour TTL, at most 8 search results. -/
def cfgC : Config := { maxSearchResults := 8, cacheEnabled := true, cacheTTL := 24 }

/-- A concrete search result. -/
def resA : SearchResult :=
  { title := "Title A", url := "https://example.com/a",
    snippet := "Snippet A", source := "DuckDuckGo" }

/-- A second concrete search result with a different URL. -/
def resB : SearchResult :=
  { title := "Title B", url := "https://example.com/b",
    snippet := "Snippet B", source := "DuckDuckGo" }

/-- A third concrete search result sharing `resA`'s URL. -/
def resA2 : SearchResult :=
  { title := "Title A again", url := "https://example.com/a",
    snippet := "Another snippet", source := "DuckDuckGo" }

/-- A cache entry holding `[resA]`, written at time 0 with TTL 24, still
pending under session "S1". -/
def pendingEntry : CacheEntry (List SearchResult) :=
  { data := [resA], timestamp := 0, ttl := 24, sessionID := "S1", pending := true }

/-- A store holding only the pending entry, under the key of the search
descriptor for query "q" with limit 3. -/
def pendingStore : Store (List SearchResult) :=
  [("search:q:3", .valid pendingEntry)]

/-- A provider that always fails. -/
def engineDown : String → Int → Except String (List SearchResult) :=
  fun _ _ => .error "provider unavailable"

/-- A provider that fails on the query "bad" and succeeds with `[resA]` on
everything else. -/
def engineMixed : String → Int → Except String (List SearchResult) :=
  fun q _ => if q = "bad" then .error "timeout" else .ok [resA]

/-- C3 counterexample: `Get` consults neither `pending` nor `sessionID`, so
a pending entry owned by session "S1" is returned as a cache hit to a
`Search` performed under the different session "S2" (even with the
provider down), contradicting the claim that pending entries are not
returned as hits outside the owning session. -/
theorem pending_entry_hits_cross_session :
    pendingEntry.pending = true ∧ pendingEntry.sessionID = "S1" ∧
    ("S2" : String) ≠ "S1" ∧
    Search cfgC id engineDown true pendingStore 1 "q" 3 "S2" =
      (.ok [resA], pendingStore) := by
  refine ⟨rfl, rfl, by decide, ?_⟩
  have hk : lookupStore pendingStore (searchDescriptor "q" 3) = some (.valid pendingEntry) := rfl
  have hget : Get cfgC pendingStore 1 (searchDescriptor "q" 3) = (some [resA], pendingStore) :=
    Get_hit cfgC pendingStore 1 (searchDescriptor "q" 3) pendingEntry rfl hk
      (by norm_num [pendingEntry])
  simp [Search, hget]

/-- C3 amended: a cache entry that is fresh (within TTL) is returned by
`Search` as a hit for every caller session ID, regardless of the entry's
`pending` flag and `sessionID`; pending entries are therefore eligible for
cross-session reuse at read time, and are withheld from the shared cache
only by their eventual deletion (discard or the sweep's grace period). -/
theorem fresh_entry_hits_any_session (cfg : Config) (fingerprint : String → String)
    (engine : String → Int → Except String (List SearchResult)) (writeOk : Bool)
    (st : Store (List SearchResult)) (now : ℚ) (q : String) (limit : Int)
    (e : CacheEntry (List SearchResult)) (hEn : cfg.cacheEnabled = true)
    (hk : lookupStore st (fingerprint (searchDescriptor q limit)) = some (.valid e))
    (hfresh : ¬(now - e.timestamp > (e.ttl : ℚ))) :
    ∀ sid' : String,
      Search cfg fingerprint engine writeOk st now q limit sid' = (.ok e.data, st) := by
  intro sid'
  have hget := Get_hit cfg st now (fingerprint (searchDescriptor q limit)) e hEn hk hfresh
  simp [Search, hget]

/-- C5: when the cache misses for a query's key, (i) a provider error is
returned to the caller unchanged and nothing is written to the cache (the
resulting store is the store left by the lookup itself, a sublist of the
original: no entry is added or modified); (ii) on provider success with a
nonempty result list, the results are returned and stored via `Set` under
the caller's session; (iii) the first component of the result never
depends on whether the store write succeeded (`Set` failure is swallowed);
and (iv) with the cache enabled, a successful write under a nonempty
session ID leaves a pending entry owned by that session. -/
theorem provider_error_not_cached (cfg : Config) (fingerprint : String → String)
    (engine : String → Int → Except String (List SearchResult))
    (st : Store (List SearchResult)) (now : ℚ) (q : String) (limit : Int)
    (sid : String)
    (hmiss : (Get cfg st now (fingerprint (searchDescriptor q limit))).1 = none) :
    (∀ (er : String) (writeOk : Bool), engine q limit = .error er →
      Search cfg fingerprint engine writeOk st now q limit sid =
        (.error er, (Get cfg st now (fingerprint (searchDescriptor q limit))).2) ∧
      (Get cfg st now (fingerprint (searchDescriptor q limit))).2.Sublist st) ∧
    (∀ (rs : List SearchResult) (writeOk : Bool), engine q limit = .ok rs → rs ≠ [] →
      Search cfg fingerprint engine writeOk st now q limit sid =
        (.ok rs, (Set cfg writeOk (Get cfg st now (fingerprint (searchDescriptor q limit))).2
          now (fingerprint (searchDescriptor q limit)) rs sid).1)) ∧
    (∀ writeOk : Bool,
      (Search cfg fingerprint engine writeOk st now q limit sid).1 =
        (Search cfg fingerprint engine true st now q limit sid).1) ∧
    (∀ rs : List SearchResult, engine q limit = .ok rs → rs ≠ [] →
      cfg.cacheEnabled = true → sid ≠ "" →
      lookupStore (Search cfg fingerprint engine true st now q limit sid).2
          (fingerprint (searchDescriptor q limit)) =
        some (.valid ⟨rs, now, cfg.cacheTTL, sid, true⟩)) := by
  rcases hget : Get cfg st now (fingerprint (searchDescriptor q limit)) with ⟨o, st1⟩
  have ho : o = none := by rw [hget] at hmiss; exact hmiss
  subst ho
  have hsub : st1.Sublist st := by
    have := Get_snd_sublist cfg st now (fingerprint (searchDescriptor q limit))
    rwa [hget] at this
  refine ⟨?_, ?_, ?_, ?_⟩
  · intro er writeOk herr
    exact ⟨by simp [Search, hget, herr], hsub⟩
  · intro rs writeOk hok hne
    have hlen : rs.length > 0 := List.length_pos.mpr hne
    simp [Search, hget, hok, hlen]
  · intro writeOk
    simp only [Search, hget]
    rcases hengine : engine q limit with er | rs
    · rfl
    · by_cases hlen : rs.length > 0 <;> simp [hlen]
  · intro rs hok hne hEn hsid
    have hlen : rs.length > 0 := List.length_pos.mpr hne
    have hSearch : Search cfg fingerprint engine true st now q limit sid =
        (.ok rs, (Set cfg true st1 now (fingerprint (searchDescriptor q limit)) rs sid).1) := by
      simp [Search, hget, hok, hlen]
    rw [hSearch]
    have hpend : (sid != "") = true := by simpa using hsid
    have hset : (Set cfg true st1 now (fingerprint (searchDescriptor q limit)) rs sid).1
        = setStore st1 (fingerprint (searchDescriptor q limit))
            (.valid ⟨rs, now, cfg.cacheTTL, sid, sid != ""⟩) := by
      simp [Set, hEn]
    rw [hset, hpend]
    exact lookupStore_setStore_self st1 _ _

/-- C6: `deduplicateResults` keeps the first occurrence of each URL, so an
aggregate `[A, B, A2]` where `A2` repeats `A`'s URL and `B` has a distinct
URL deduplicates to exactly `[A, B]` (count 2); and the truncation step of
`PerformParallelSearches` caps every final list at the configured
`maxSearchResults`. -/
theorem dedupe_by_url_and_truncate (A B A2 : SearchResult)
    (hAA : A2.url = A.url) (hBA : B.url ≠ A.url) :
    deduplicateResults [A, B, A2] = [A, B] ∧
    (∀ (m : Nat) (rs : List SearchResult), (truncateResults m rs).length ≤ m) ∧
    (∀ (cfg : Config) (fingerprint : String → String)
      (engine : String → Int → Except String (List SearchResult)) (writeOk : Bool)
      (st : Store (List SearchResult)) (now : ℚ) (queries : List String)
      (limit : Int) (sid : String),
      (PerformParallelSearches cfg fingerprint engine writeOk st now queries
          limit sid).1.length ≤ cfg.maxSearchResults) := by
  refine ⟨?_, length_truncateResults, ?_⟩
  · simp [deduplicateResults, dedupeLoop, hAA, hBA]
  · intro cfg fingerprint engine writeOk st now queries limit sid
    simp only [PerformParallelSearches]
    exact length_truncateResults cfg.maxSearchResults _

/-- C7: `PerformParallelSearches` returns (without any error value: its
result type carries none) the deduplicated, truncated aggregate of exactly
the successful queries' results: the output equals the flattening of the
`.ok` outcomes of the per-query `Search` calls, deduplicated and
truncated, and every returned result belongs to some successful query's
result list; failed queries contribute nothing. -/
theorem batch_failures_excluded (cfg : Config) (fingerprint : String → String)
    (engine : String → Int → Except String (List SearchResult)) (writeOk : Bool)
    (st : Store (List SearchResult)) (now : ℚ) (queries : List String)
    (limit : Int) (sid : String) :
    PerformParallelSearches cfg fingerprint engine writeOk st now queries limit sid =
      (truncateResults cfg.maxSearchResults (deduplicateResults
        (((searchOutcomes cfg fingerprint engine writeOk st now queries limit sid).1.filterMap
          Except.toOption).flatten)),
        (searchOutcomes cfg fingerprint engine writeOk st now queries limit sid).2) ∧
    (∀ r, r ∈ (PerformParallelSearches cfg fingerprint engine writeOk st now queries
        limit sid).1 →
      ∃ rs, Except.ok rs ∈ (searchOutcomes cfg fingerprint engine writeOk st now
        queries limit sid).1 ∧ r ∈ rs) := by
  have heq : PerformParallelSearches cfg fingerprint engine writeOk st now queries limit sid =
      (truncateResults cfg.maxSearchResults (deduplicateResults
        (((searchOutcomes cfg fingerprint engine writeOk st now queries limit sid).1.filterMap
          Except.toOption).flatten)),
        (searchOutcomes cfg fingerprint engine writeOk st now queries limit sid).2) := by
    simp only [PerformParallelSearches,
      searchBatch_eq_outcomes cfg fingerprint engine writeOk now limit sid queries st]
  refine ⟨heq, ?_⟩
  intro r hr
  rw [heq] at hr
  have hr1 : r ∈ deduplicateResults
      (((searchOutcomes cfg fingerprint engine writeOk st now queries limit sid).1.filterMap
        Except.toOption).flatten) := by
    revert hr
    unfold truncateResults
    split
    · intro hr
      exact List.take_subset _ _ hr
    · intro hr
      exact hr
  have hr2 : r ∈ ((searchOutcomes cfg fingerprint engine writeOk st now queries
      limit sid).1.filterMap Except.toOption).flatten :=
    mem_of_mem_dedupeLoop r [] _ hr1
  rw [List.mem_flatten] at hr2
  obtain ⟨l, hl, hrl⟩ := hr2
  rw [List.mem_filterMap] at hl
  obtain ⟨o, ho, hol⟩ := hl
  rcases o with er | rs
  · simp [Except.toOption] at hol
  · have : rs = l := by simpa [Except.toOption] using hol
    exact ⟨l, this ▸ ho, hrl⟩

/-- C10 counterexample: the semaphore of `PerformParallelSearches` has the
hardcoded capacity 4 and is not supplied by the caller, so with a batch of
10 queries the scheduler can reach a state with 4 searches in flight:
"never more than 3 concurrent calls" is false. -/
theorem four_in_flight_reachable :
    PoolReachable 10 ⟨6, 4, 0⟩ ∧ ¬((⟨6, 4, 0⟩ : PoolState).inFlight ≤ 3) := by
  have h0 : PoolReachable 10 ⟨10, 0, 0⟩ := PoolReachable.init
  have h1 : PoolReachable 10 ⟨9, 1, 0⟩ :=
    h0.step (PoolStep.acquire ⟨10, 0, 0⟩ (by decide) (by decide))
  have h2 : PoolReachable 10 ⟨8, 2, 0⟩ :=
    h1.step (PoolStep.acquire ⟨9, 1, 0⟩ (by decide) (by decide))
  have h3 : PoolReachable 10 ⟨7, 3, 0⟩ :=
    h2.step (PoolStep.acquire ⟨8, 2, 0⟩ (by decide) (by decide))
  have h4 : PoolReachable 10 ⟨6, 4, 0⟩ :=
    h3.step (PoolStep.acquire ⟨7, 3, 0⟩ (by decide) (by decide))
  exact ⟨h4, by decide⟩

/-- C10 amended: in every state reachable during an execution of the
fan-out of `PerformParallelSearches`, at most `semaphoreCapacity = 4`
searches (the hardcoded channel capacity of web.go line 159) are in flight
simultaneously, regardless of the batch size `n`. -/
theorem in_flight_bounded_by_capacity (n : Nat) (s : PoolState)
    (hs : PoolReachable n s) : s.inFlight ≤ semaphoreCapacity := by
  induction hs with
  | init => exact Nat.zero_le _
  | step hprev hstp ih =>
    cases hstp with
    | acquire hw hcap => exact hcap
    | release hf => exact Nat.le_trans (Nat.sub_le _ _) ih

/-! ### Witnesses: the claim theorems applied at concrete inputs -/

/-- A store holding only one corrupt file. -/
def corruptStore : Store (List SearchResult) := [("bad", .corrupt)]

/-- Witness for C1 at the concrete pending store. -/
theorem commit_finalizes_pending_witness :
    lookupStore (CommitSessionCache cfgC pendingStore "S1") "search:q:3"
      = some (.valid ⟨[resA], 0, 24, "", false⟩) ∧
    (Get cfgC (CommitSessionCache cfgC pendingStore "S1") 1 "search:q:3").1
      = some [resA] ∧
    lookupStore (ClearSessionCache cfgC (CommitSessionCache cfgC pendingStore "S1") "S1")
        "search:q:3"
      = some (.valid ⟨[resA], 0, 24, "", false⟩) := by
  have h := commit_finalizes_pending cfgC pendingStore "S1" "search:q:3" pendingEntry
    rfl (by decide) rfl rfl rfl
  exact ⟨h.1, h.2.1 1 (by norm_num [pendingEntry]), h.2.2⟩

/-- Witness for C2: a hit 1 hour after the write, a miss with deletion 25
hours after the write, under the default 24 hour TTL. -/
theorem ttl_monotonicity_witness :
    Get cfgC (Set cfgC true [] 0 "k" [resA] "").1 1 "k"
      = (some [resA], (Set cfgC true [] 0 "k" [resA] "").1) ∧
    (Get cfgC (Set cfgC true [] 0 "k" [resA] "").1 25 "k").1 = none ∧
    lookupStore (Get cfgC (Set cfgC true [] 0 "k" [resA] "").1 25 "k").2 "k" = none := by
  have hhit := ttl_monotonicity cfgC [] 0 1 "k" [resA] "" rfl
  have hmiss := ttl_monotonicity cfgC [] 0 25 "k" [resA] "" rfl
  refine ⟨hhit.1 (by norm_num [cfgC]), ?_, ?_⟩
  · exact (hmiss.2 (by norm_num [cfgC])).1
  · exact (hmiss.2 (by norm_num [cfgC])).2

/-- Witness for C4: the pending entry is swept 2 hours after creation
(grace period exceeded) but kept half an hour after creation. -/
theorem sweep_deletes_iff_witness :
    lookupStore (CleanExpired cfgC pendingStore 2) "search:q:3" = none ∧
    lookupStore (CleanExpired cfgC pendingStore (1/2)) "search:q:3"
      = some (.valid pendingEntry) := by
  have hlate := sweep_deletes_iff cfgC pendingStore 2 "search:q:3" pendingEntry
    rfl (by decide) rfl
  have hearly := sweep_deletes_iff cfgC pendingStore (1/2) "search:q:3" pendingEntry
    rfl (by decide) rfl
  refine ⟨hlate.1.mpr (Or.inr ⟨rfl, by norm_num [pendingEntry]⟩), hearly.2 ?_⟩
  norm_num [pendingEntry]

/-- Witness for C5: with an empty store, a provider error is returned
unchanged and nothing is cached, while a provider success is returned. -/
theorem provider_error_not_cached_witness :
    Search cfgC id engineDown true [] 1 "q" 3 "S1"
      = (.error "provider unavailable", []) ∧
    (Search cfgC id engineMixed true [] 1 "good" 3 "S1").1 = .ok [resA] := by
  have hdown := provider_error_not_cached cfgC id engineDown [] 1 "q" 3 "S1" rfl
  have hmix := provider_error_not_cached cfgC id engineMixed [] 1 "good" 3 "S1" rfl
  constructor
  · exact (hdown.1 "provider unavailable" true rfl).1
  · rw [hmix.2.1 [resA] true rfl (List.cons_ne_nil _ _)]

/-- Witness for C6 at three concrete results, two of which share a URL. -/
theorem dedupe_by_url_and_truncate_witness :
    deduplicateResults [resA, resB, resA2] = [resA, resB] ∧
    (truncateResults 2 [resA, resB, resA2]).length ≤ 2 := by
  have h := dedupe_by_url_and_truncate resA resB resA2 rfl (by decide)
  exact ⟨h.1, h.2.1 2 [resA, resB, resA2]⟩

/-- Witness for C7: in a batch where "bad" fails and "good" succeeds, every
returned result (here `resA`) comes from a successful query's outcome. -/
theorem batch_failures_excluded_witness :
    ∃ rs, Except.ok rs ∈ (searchOutcomes cfgC id engineMixed true [] 1
        ["good", "bad"] 3 "S1").1 ∧ resA ∈ rs := by
  have h := batch_failures_excluded cfgC id engineMixed true [] 1 ["good", "bad"] 3 "S1"
  exact h.2 resA (by decide)

/-- Witness for C8 at a store holding one corrupt file. -/
theorem corrupt_file_is_miss_and_kept_witness :
    Get cfgC corruptStore 1 "bad" = (none, corruptStore) ∧
    lookupStore (CleanExpired cfgC corruptStore 1) "bad" = some (.corrupt) :=
  corrupt_file_is_miss_and_kept cfgC corruptStore 1 "bad" rfl

/-- Witness for C9: commit and discard under session "S2" do not touch the
pending entry owned by "S1". -/
theorem session_isolation_witness :
    lookupStore (CommitSessionCache cfgC pendingStore "S2") "search:q:3"
      = some (.valid pendingEntry) ∧
    lookupStore (ClearSessionCache cfgC pendingStore "S2") "search:q:3"
      = some (.valid pendingEntry) :=
  session_isolation cfgC pendingStore "S2" "search:q:3" pendingEntry rfl rfl
    (Or.inl (by decide))

/-- Witness for the amended C3: the fresh pending entry owned by "S1" is
served to a search under session "S3". -/
theorem fresh_entry_hits_any_session_witness :
    Search cfgC id engineDown true pendingStore 1 "q" 3 "S3"
      = (.ok [resA], pendingStore) := by
  have h := fresh_entry_hits_any_session cfgC id engineDown true pendingStore 1 "q" 3
    pendingEntry rfl rfl (by norm_num [pendingEntry])
  exact h "S3"

/-- Witness for the amended C10: the bound applied to a concrete reachable
state of a batch of 10. -/
theorem in_flight_bounded_by_capacity_witness :
    (initPool 10).inFlight ≤ semaphoreCapacity :=
  in_flight_bounded_by_capacity 10 (initPool 10) PoolReachable.init

end Hvsum
